import Mathlib

/-!
Shallow embedding of the CourseSync timetable-to-ICS pipeline (src/main.py)
and verification of its specification claims.

Python strings are modelled as `String`/`List Char`; the regular expressions
of the source are embedded as hand-rolled matchers with the same backtracking
semantics (leftmost match, greedy/lazy repetition, non-overlapping finditer
scan).  Python exceptions are modelled with `Except String`: a value
`.error msg` means the Python code raises at that point.
-/

deriving instance DecidableEq for Except

/-! ### Character classes (fragments of Python `\d`, `\s`, `\w`, `[A-Z]`) -/

/-- Python `\s` (whitespace), restricted to the characters that can occur in
the inputs considered here: the six ASCII whitespace characters plus the
common Unicode spaces (NBSP and the ideographic space). -/
def isPySpace (c : Char) : Bool :=
  c = ' ' || c = '\t' || c = '\n' || c = '\r' ||
  c = '\x0b' || c = '\x0c' || c = ' ' || c = '　'

/-- Python `\w` (word character), restricted to ASCII alphanumerics, the
underscore and the CJK unified ideographs block, which covers every word
character that can appear in the timetable texts considered here. -/
def isPyWord (c : Char) : Bool :=
  c.isAlphanum || c = '_' || (0x4e00 ≤ c.toNat && c.toNat ≤ 0x9fff)

/-- Python `[A-Z]`. -/
def isUpperAZ (c : Char) : Bool := 'A' ≤ c && c ≤ 'Z'

/-- Python `int()` on a run of ASCII digits. -/
def digitsToNat (cs : List Char) : Nat :=
  cs.foldl (fun n c => n * 10 + (c.toNat - '0'.toNat)) 0

/-- Python `str.strip()` on a character list. -/
def trimChars (cs : List Char) : List Char :=
  ((cs.dropWhile isPySpace).reverse.dropWhile isPySpace).reverse

/-- Python `str.strip()`. -/
def pyStrip (s : String) : String := String.mk (trimChars s.data)

/-- Python `str.split(sep)` for a one-character separator: always returns at
least one piece; splitting the empty string yields `[""]`. -/
def splitOnChar (sep : Char) : List Char → List (List Char)
  | [] => [[]]
  | c :: t =>
    if c = sep then [] :: splitOnChar sep t
    else
      match splitOnChar sep t with
      | h :: r => (c :: h) :: r
      | [] => [[c]]

/-- Python `str.rstrip(';')`: drop all trailing semicolons. -/
def rstripSemi (cs : List Char) : List Char :=
  (cs.reverse.dropWhile (fun c => c = ';')).reverse

/-! ### Generic `re.finditer` scan

`scanWith m cs skip` walks the text left to right.  `skip` counts positions
still inside the previous match (Python's `finditer` resumes scanning at the
end of each match).  When `skip = 0` a match of `m` is attempted at the
current position; `m` returns the captured value and the remaining suffix. -/

def scanWith (m : List Char → Option (α × List Char)) :
    List Char → Nat → List α
  | [], _ => []
  | _ :: cs, Nat.succ skip => scanWith m cs skip
  | l@(_ :: cs), 0 =>
    match m l with
    | some (a, rest) => a :: scanWith m cs (l.length - rest.length - 1)
    | none => scanWith m cs 0

/-! ### `parse_weeks` (src/main.py:114-141) -/

/-- Matcher for `(\d+)~(\d+)周` at the current position.  The digit runs are
greedy; no backtracking into them is possible because the characters required
after each run (`~`, `周`) are not digits. -/
def matchRangeAt (cs : List Char) : Option ((Nat × Nat) × List Char) :=
  let d1 := cs.takeWhile Char.isDigit
  if d1.isEmpty then none else
  match cs.dropWhile Char.isDigit with
  | '~' :: r2 =>
    let d2 := r2.takeWhile Char.isDigit
    if d2.isEmpty then none else
    match r2.dropWhile Char.isDigit with
    | '周' :: r4 => some ((digitsToNat d1, digitsToNat d2), r4)
    | _ => none
  | _ => none

/-- Matcher for `(\d+)周(?!\s*~)` at the current position: a digit run, the
character `周`, then the negative lookahead succeeds unless optional
whitespace followed by `~` comes next (the lookahead consumes nothing). -/
def matchSingleAt (cs : List Char) : Option ((Nat × Nat) × List Char) :=
  let d1 := cs.takeWhile Char.isDigit
  if d1.isEmpty then none else
  match cs.dropWhile Char.isDigit with
  | '周' :: r2 =>
    match r2.dropWhile isPySpace with
    | '~' :: _ => none
    | _ => some ((digitsToNat d1, digitsToNat d1), r2)
  | _ => none

/-- `parse_weeks` (src/main.py:114-141): all matches of the range pattern in
order, followed by all matches of the single-week pattern in order. -/
def parse_weeks (week_str : String) : List (Nat × Nat) :=
  scanWith matchRangeAt week_str.data 0 ++ scanWith matchSingleAt week_str.data 0

/-! ### `_convert_cn_num` (src/main.py:170-194) and the numeral table -/

/-- `cn_num_map` (src/main.py:84-88). -/
def cn_num_map : List (String × Nat) :=
  [("一", 1), ("二", 2), ("三", 3), ("四", 4), ("五", 5),
   ("六", 6), ("七", 7), ("八", 8), ("九", 9), ("十", 10),
   ("十一", 11), ("十二", 12)]

/-- `_convert_cn_num` (src/main.py:170-194).  Python's `"十" in cn_num` is a
substring test; for the single character `十` it is character membership.
`cn_num[1]` is the second character of the token. -/
def convert_cn_num (cn_num : String) : Nat :=
  match cn_num_map.lookup cn_num with
  | some v => v
  | none =>
    if cn_num.data.contains '十' then
      match cn_num.data with
      | _ :: second :: _ =>
        match cn_num_map.lookup (String.mk [second]) with
        | some v => 10 + v
        | none => 10
      | _ => 10
    else 1

/-! ### `parse_time_slots` (src/main.py:143-168) -/

/-- The character class `[一二三四五六七八九十]`. -/
def isCnDigit (c : Char) : Bool :=
  c = '一' || c = '二' || c = '三' || c = '四' || c = '五' ||
  c = '六' || c = '七' || c = '八' || c = '九' || c = '十'

/-- Matcher for `第([一二三四五六七八九十]+)节~(?:第)?([一二三四五六七八九十]+)节`
at the current position.  Both `+` runs are greedy and need no backtracking
(`节` is not in the class); the optional `第` is deterministic because `第`
is not in the class either. -/
def matchSlotAt (cs : List Char) : Option ((Nat × Nat) × List Char) :=
  match cs with
  | '第' :: r1 =>
    let g1 := r1.takeWhile isCnDigit
    if g1.isEmpty then none else
    match r1.dropWhile isCnDigit with
    | '节' :: '~' :: r3 =>
      let r4 := match r3 with
        | '第' :: t => t
        | _ => r3
      let g2 := r4.takeWhile isCnDigit
      if g2.isEmpty then none else
      match r4.dropWhile isCnDigit with
      | '节' :: r6 =>
        some ((convert_cn_num (String.mk g1), convert_cn_num (String.mk g2)), r6)
      | _ => none
    | _ => none
  | _ => none

/-- `parse_time_slots` (src/main.py:143-168). -/
def parse_time_slots (time_str : String) : List (Nat × Nat) :=
  scanWith matchSlotAt time_str.data 0

/-! ### Static time tables (src/main.py:18-40) -/

/-- `class_time_map` (src/main.py:18-31). -/
def class_time_map : List (Nat × (String × String)) :=
  [(1, ("08:00", "08:45")), (2, ("08:55", "09:30")), (3, ("09:40", "10:25")),
   (4, ("10:35", "11:10")), (5, ("12:40", "13:25")), (6, ("13:35", "14:10")),
   (7, ("14:20", "15:05")), (8, ("15:15", "15:50")), (9, ("17:00", "17:45")),
   (10, ("17:55", "18:40")), (11, ("18:50", "19:35")), (12, ("19:45", "20:10"))]

/-- `merged_time_map` (src/main.py:34-40). -/
def merged_time_map : List (String × (String × String)) :=
  [("1-2", ("08:00", "09:30")), ("3-4", ("09:40", "11:10")),
   ("5-6", ("12:40", "14:10")), ("7-8", ("14:20", "15:50")),
   ("9-12", ("17:00", "20:10"))]

/-- The slot-resolution step of `parse_course_info` (src/main.py:259-268):
given a non-empty `time_slots` list, take `time_slots[0][0]` and
`time_slots[-1][1]`, look the pair up in `merged_time_map`, and otherwise
fall back to `class_time_map`.  A missing `class_time_map` key is a Python
`KeyError`, modelled as `.error`. -/
def resolveSlots (slots : List (Nat × Nat)) : Except String (String × String) :=
  match slots with
  | [] => .error "IndexError"
  | s0 :: rest =>
    let first := s0.1
    let last := (List.getLast (s0 :: rest) (by simp)).2
    let slot_key := Nat.repr first ++ "-" ++ Nat.repr last
    match merged_time_map.lookup slot_key with
    | some p => .ok p
    | none =>
      match class_time_map.lookup first, class_time_map.lookup last with
      | some ps, some pe => .ok (ps.1, pe.2)
      | _, _ => .error "KeyError"

/-! ### `extract_course_name` (src/main.py:90-112) -/

/-- The header placeholders of src/main.py:107. -/
def headerLabels : List String :=
  ["课程信息", "教学班", "时间地点人员", "人数", "教学材料"]

/-- `extract_course_name` (src/main.py:90-112).  Note that Python's
`split('\n')` never returns an empty list, so the `[]` branch is the
unreachable `if not lines` guard of the source. -/
def extract_course_name (text_block : String) : String :=
  let lines := splitOnChar '\n' (pyStrip text_block).data
  match lines with
  | [] => "未知课程"
  | l0 :: rest =>
    let first_line := String.mk (trimChars l0)
    if headerLabels.contains first_line then
      match rest with
      | l1 :: _ => String.mk (trimChars l1)
      | [] => "未知课程"
    else first_line

/-! ### `parse_classroom_location` (src/main.py:343-386) -/

/-- Remove every (leftmost, non-overlapping) occurrence of the substring
`金海` from `cs`: Python `location.replace("金海", "")` (src/main.py:354). -/
def removeJinhai : List Char → List Char
  | [] => []
  | '金' :: '海' :: t => removeJinhai t
  | c :: t => c :: removeJinhai t

/-- `building_names` (src/main.py:371-375). -/
def building_names : List (String × String) :=
  [("9", "胜祥商学院楼"), ("8", "科学实验楼"), ("12", "综合实验实训大楼")]

/-- The body of the `try` block of `parse_classroom_location`
(src/main.py:360-384).  Every operation in it is total in Python as well
(indexing and slicing are guarded by the length check of the caller), so the
`.error` branches are unreachable; they model the exceptions the `except`
clause would swallow. -/
def pclTryBody (loc : List Char) : Except String String :=
  let fmt := fun (building : String) (floor : Char) (room : List Char) =>
    if building = "1" || building = "2" || building = "3" ||
       building = "4" || building = "5" || building = "6" then
      .ok ("上海杉达学院金海校区教学楼" ++ building ++ "号楼 " ++
        String.mk [floor] ++ "楼" ++ String.mk room ++ "教室")
    else
      match building_names.lookup building with
      | some nm => .ok ("上海杉达学院金海校区" ++ nm ++ " " ++
          String.mk [floor] ++ "楼" ++ String.mk room ++ "教室")
      | none => .ok ("上海杉达学院金海校区" ++ building ++ "号楼 " ++
          String.mk [floor] ++ "楼" ++ String.mk room ++ "教室")
  if loc.length = 4 then
    match loc with
    | b :: f :: room => fmt (String.mk [b]) f room
    | _ => .error "IndexError"
  else
    match loc with
    | b1 :: b2 :: f :: room => fmt (String.mk [b1, b2]) f room
    | _ => .error "IndexError"

/-- `parse_classroom_location` (src/main.py:343-386), with Python exceptions
made explicit: the function itself returns `Except`, and the `except` clause
of the source maps any error of the `try` body to the generic fallback. -/
def parse_classroom_location (location : String) : Except String String :=
  let loc := trimChars (removeJinhai location.data)
  let generic := "上海杉达学院金海校区 " ++ String.mk loc
  if loc.length ≠ 4 ∧ loc.length ≠ 5 then .ok generic
  else
    match pclTryBody loc with
    | .ok r => .ok r
    | .error _ => .ok generic

/-! ### The composite `time_loc_pattern` of `parse_course_info` (src/main.py:244)

`((?:\d+~\d+|\d+)周)\s+(星期[一二三四五六日])\s+((?:第.*?节~.*?节)|(?:\d{2}:\d{2}~\d{2}:\d{2}))\s+(金海\s*\w+)\s+([^;\n]+)`

The matchers below reproduce the backtracking behaviour of Python `re`:
greedy runs backtrack only where a shorter run could be followed by the
required next character (this is impossible for every greedy run here, as
noted case by case), the lazy `.*?` runs retry longer consumptions when the
rest of the pattern fails, and alternations try the left branch first. -/

/-- The five captured groups of `time_loc_pattern`. -/
structure TLGroups where
  weeksStr : List Char
  weekday  : List Char
  timeStr  : List Char
  location : List Char
  teacher  : List Char
deriving DecidableEq, Repr

/-- Group 1, `((?:\d+~\d+|\d+)周)`.  If the first alternative matches, the
second cannot match at the same position (the character after the first
digit run is `~`, not `周`), so committing to the first alternative is
faithful. -/
def matchWeeksGroup (cs : List Char) : Option (List Char × List Char) :=
  let d1 := cs.takeWhile Char.isDigit
  let r1 := cs.dropWhile Char.isDigit
  if d1.isEmpty then none else
  (match r1 with
   | '~' :: r2 =>
     let d2 := r2.takeWhile Char.isDigit
     if d2.isEmpty then none else
     match r2.dropWhile Char.isDigit with
     | '周' :: r4 => some (d1 ++ '~' :: d2 ++ ['周'], r4)
     | _ => none
   | _ => none)
  <|>
  (match r1 with
   | '周' :: r4 => some (d1 ++ ['周'], r4)
   | _ => none)

/-- `[^;\n]`. -/
def notSemiNl (c : Char) : Bool := !(c = ';' || c = '\n')

/-- The trailing `\s+([^;\n]+)` of the pattern.  The greedy `\s+` backtracks:
whitespace characters other than `\n` are themselves in `[^;\n]`, so when the
teacher class fails after the maximal whitespace run, shorter runs are tried
(longest first), exactly as Python does.  `cs` starts at the whitespace run;
the argument counts how many whitespace characters `\s+` consumes. -/
def trySpacesTeacher (cs : List Char) : Nat → Option (List Char × List Char)
  | 0 => none
  | Nat.succ k =>
    let r := cs.drop (Nat.succ k)
    let t := r.takeWhile notSemiNl
    if t.isEmpty then trySpacesTeacher cs k else some (t, r.dropWhile notSemiNl)

/-- The tail `\s+(金海\s*\w+)\s+([^;\n]+)` of the pattern; returns
(location group, teacher group, rest).  In `金海\s*\w+` both runs are
deterministic: `\s` and `\w` are disjoint classes, so no shorter run can be
followed by the respective next requirement. -/
def matchTail (r : List Char) : Option (List Char × List Char × List Char) :=
  let sp1 := r.takeWhile isPySpace
  if sp1.isEmpty then none else
  match r.dropWhile isPySpace with
  | '金' :: '海' :: r2 =>
    let sp2 := r2.takeWhile isPySpace
    let r3 := r2.dropWhile isPySpace
    let w := r3.takeWhile isPyWord
    let r4 := r3.dropWhile isPyWord
    if w.isEmpty then none else
    let spT := r4.takeWhile isPySpace
    if spT.isEmpty then none else
    match trySpacesTeacher r4 spT.length with
    | some (t, r5) => some ('金' :: '海' :: (sp2 ++ w), t, r5)
    | none => none
  | _ => none

/-- Lazy `.*?` followed by the literal `c` (`.` does not match `\n`),
continuation-passing: the shortest consumption is tried first and extended
when the continuation fails, exactly Python's lazy-star backtracking.
`acc` accumulates the consumed characters (including the final `c`). -/
def lazyThru (c : Char) (acc : List Char)
    (k : List Char → List Char → Option α) : List Char → Option α
  | [] => none
  | x :: rest =>
    (if x = c then k (acc ++ [x]) rest else none)
    <|> (if x = '\n' then none else lazyThru c (acc ++ [x]) k rest)

/-- Group 3, first alternative `第.*?节~.*?节`, continuation-passing so that
a failure in the rest of the pattern backtracks into the lazy runs. -/
def matchTimeAlt1 (cs : List Char)
    (k : List Char → List Char → Option α) : Option α :=
  match cs with
  | '第' :: r1 =>
    lazyThru '节' ['第'] (fun g1 r2 =>
      match r2 with
      | '~' :: r3 => lazyThru '节' (g1 ++ ['~']) k r3
      | _ => none) r1
  | _ => none

/-- Group 3, second alternative `\d{2}:\d{2}~\d{2}:\d{2}`. -/
def matchTimeAlt2 (cs : List Char) : Option (List Char × List Char) :=
  match cs with
  | a :: b :: ':' :: c :: d :: '~' :: e :: f :: ':' :: g :: h :: r =>
    if a.isDigit && b.isDigit && c.isDigit && d.isDigit &&
       e.isDigit && f.isDigit && g.isDigit && h.isDigit then
      some ([a, b, ':', c, d, '~', e, f, ':', g, h], r)
    else none
  | _ => none

/-- A match attempt of the whole `time_loc_pattern` at the current position.
The two alternatives of group 3 start with distinct characters (`第` versus a
digit), so trying the second after the first fails is faithful. -/
def matchTimeLocAt (cs : List Char) : Option (TLGroups × List Char) :=
  match matchWeeksGroup cs with
  | none => none
  | some (wks, r1) =>
    let sp1 := r1.takeWhile isPySpace
    if sp1.isEmpty then none else
    match r1.dropWhile isPySpace with
    | '星' :: '期' :: wd :: r3 =>
      if wd = '一' || wd = '二' || wd = '三' || wd = '四' ||
         wd = '五' || wd = '六' || wd = '日' then
        let sp2 := r3.takeWhile isPySpace
        let r4 := r3.dropWhile isPySpace
        if sp2.isEmpty then none else
        (matchTimeAlt1 r4 (fun ts r5 =>
           match matchTail r5 with
           | some (loc, tea, rest) => some (⟨wks, ['星', '期', wd], ts, loc, tea⟩, rest)
           | none => none))
        <|>
        (match matchTimeAlt2 r4 with
         | some (ts, r5) =>
           match matchTail r5 with
           | some (loc, tea, rest) => some (⟨wks, ['星', '期', wd], ts, loc, tea⟩, rest)
           | none => none
         | none => none)
      else none
    | _ => none

/-! ### `parse_course_info` (src/main.py:196-291) -/

/-- A parsed time/location entry (the `time_location` dict of
src/main.py:274-283). -/
structure TimeLocation where
  weeks : List (Nat × Nat)
  weekday : String
  time_slots : Option (List (Nat × Nat))
  start_time : String
  end_time : String
  time_str : String
  location : String
  teacher : String
deriving DecidableEq, Repr

/-- A parsed course (the `course` dict of src/main.py:238-241). -/
structure Course where
  name : String
  time_locations : List TimeLocation
deriving DecidableEq, Repr

/-- The `re.search(r'\d{3}[A-Z]\d{4}', ...)` course-code test at one
position. -/
def courseCodeAt : List Char → Bool
  | a :: b :: c :: d :: e :: f :: g :: h :: _ =>
    a.isDigit && b.isDigit && c.isDigit && isUpperAZ d &&
    e.isDigit && f.isDigit && g.isDigit && h.isDigit
  | _ => false

/-- `re.search(r'\d{3}[A-Z]\d{4}', line)` (src/main.py:220). -/
def hasCourseCode : List Char → Bool
  | [] => false
  | l@(_ :: t) => courseCodeAt l || hasCourseCode t

/-- Python `'\n'.join`. -/
def joinNL : List (List Char) → List Char
  | [] => []
  | [l] => l
  | l :: ls => l ++ '\n' :: joinNL ls

/-- The block-segmentation loop of `parse_course_info` (src/main.py:213-230).
The block-start test peeks at the next raw (unstripped) line; stripped
non-blank lines are accumulated into the current block once a course has
started, and the final block is flushed after the loop. -/
def segLoop : List (List Char) → List (List Char) → Bool → List (List Char) →
    List (List Char)
  | [], cur, _, blocks => blocks ++ (if cur.isEmpty then [] else [joinNL cur])
  | l :: rest, cur, started, blocks =>
    let line := trimChars l
    if line.isEmpty then segLoop rest cur started blocks
    else
      match rest with
      | next :: _ =>
        if hasCourseCode next then
          segLoop rest [line] true (blocks ++ (if cur.isEmpty then [] else [joinNL cur]))
        else if started then segLoop rest (cur ++ [line]) started blocks
        else segLoop rest cur started blocks
      | [] =>
        if started then segLoop rest (cur ++ [line]) started blocks
        else segLoop rest cur started blocks

/-- The local variables `start_time`/`end_time` of `parse_course_info`.
They are plain function-scope locals in Python, so they persist across
loop iterations (and across course blocks); `none` means not yet assigned. -/
abbrev STState := Option (String × String)

/-- Processing of one `time_loc_pattern` match (src/main.py:245-285).
When the time token contains `第` but `parse_time_slots` extracts nothing,
the source's `if time_slots:` has no else branch: `start_time`/`end_time`
keep their previous values, and if they were never assigned Python raises
`UnboundLocalError` when building the dict. -/
def processTLMatch (st : STState) (g : TLGroups) :
    Except String (STState × TimeLocation) :=
  let weekday := String.mk g.weekday
  let time_str_raw := String.mk g.timeStr
  let location := String.mk (g.location.filter (fun c => c ≠ ' '))
  let teacher := String.mk (rstripSemi (trimChars g.teacher))
  let weeks := parse_weeks (String.mk g.weeksStr)
  if g.timeStr.contains '第' then
    let slots := parse_time_slots time_str_raw
    if slots.isEmpty then
      match st with
      | some (s, e) =>
        .ok (st, ⟨weeks, weekday, some slots, s, e, s ++ "-" ++ e, location, teacher⟩)
      | none => .error "UnboundLocalError: start_time"
    else
      match resolveSlots slots with
      | .ok (s, e) =>
        .ok (some (s, e), ⟨weeks, weekday, some slots, s, e, s ++ "-" ++ e, location, teacher⟩)
      | .error msg => .error msg
  else
    match splitOnChar '~' g.timeStr with
    | [s, e] =>
      .ok (some (String.mk s, String.mk e),
        ⟨weeks, weekday, none, String.mk s, String.mk e,
         String.mk s ++ "-" ++ String.mk e, location, teacher⟩)
    | _ => .error "ValueError: unpack"

/-- The inner match loop of `parse_course_info` over one block. -/
def processMatches : STState → List TLGroups →
    Except String (STState × List TimeLocation)
  | st, [] => .ok (st, [])
  | st, g :: gs =>
    match processTLMatch st g with
    | .error m => .error m
    | .ok (st', tl) =>
      match processMatches st' gs with
      | .error m => .error m
      | .ok (st'', tls) => .ok (st'', tl :: tls)

/-- The per-block loop of `parse_course_info` (src/main.py:233-289); a course
with no time/location entries is dropped. -/
def processBlocks : STState → List (List Char) → Except String (List Course)
  | _, [] => .ok []
  | st, b :: bs =>
    let name := extract_course_name (String.mk b)
    match processMatches st (scanWith matchTimeLocAt b 0) with
    | .error m => .error m
    | .ok (st', tls) =>
      match processBlocks st' bs with
      | .error m => .error m
      | .ok cs => .ok (if tls.isEmpty then cs else ⟨name, tls⟩ :: cs)

/-- `parse_course_info` (src/main.py:196-291), with Python exceptions made
explicit as `.error`. -/
def parse_course_info (text : String) : Except String (List Course) :=
  processBlocks none (segLoop (splitOnChar '\n' (pyStrip text).data) [] false [])

/-! ### `generate_events` (src/main.py:388-544) -/

/-- `weekday_map` (src/main.py:59-67). -/
def weekday_map : List (String × Nat) :=
  [("星期一", 0), ("星期二", 1), ("星期三", 2), ("星期四", 3),
   ("星期五", 4), ("星期六", 5), ("星期日", 6)]

/-- Python `int()` on a non-negative decimal literal: surrounding whitespace
is tolerated, anything other than a non-empty digit run raises (`none`). -/
def pyInt (cs : List Char) : Option Nat :=
  let t := trimChars cs
  if t.isEmpty then none
  else if t.all Char.isDigit then some (digitsToNat t) else none

/-- Python `map(int, s.split(':'))` unpacked into two values: exactly two
pieces, each a decimal literal. -/
def parseIntPair (s : String) : Option (Nat × Nat) :=
  match splitOnChar ':' s.data with
  | [a, b] =>
    match pyInt a, pyInt b with
    | some x, some y => some (x, y)
    | _, _ => none
  | _ => none

/-- The start-hour → merged-block anchor of src/main.py:432-441 and
506-516 (the two copies are identical). -/
def slotAnchor (h : Nat) : Option String :=
  if h = 8 then some "1-2"
  else if h = 9 then some "3-4"
  else if h = 12 then some "5-6"
  else if h = 14 then some "7-8"
  else if h = 17 then some "9-12"
  else none

/-- Python `range(s, e + 1)`. -/
def weekRange (s e : Nat) : List Nat := (List.range (e + 1 - s)).map (fun i => s + i)

/-- The weeks a `TimeLocation` expands to: the nested
`for week_range in weeks: for week_num in range(start, end + 1)` loops. -/
def tlWeeks (tl : TimeLocation) : List Nat :=
  tl.weeks.flatMap fun p => weekRange p.1 p.2

/-- The day-occupancy entries contributed by one `TimeLocation` in the first
pass of `generate_events` (src/main.py:423-450): one `((week, weekdayOffset),
slot)` pair per expanded week.  The weekday lookup and the start-time parse
happen before the week loop, so they can raise even when `weeks` is empty. -/
def pass1TL (tl : TimeLocation) : Except String (List ((Nat × Nat) × Option String)) :=
  match weekday_map.lookup tl.weekday with
  | none => .error "KeyError: weekday"
  | some off =>
    match parseIntPair tl.start_time with
    | none => .error "ValueError: time"
    | some (sh, _) =>
      .ok ((tlWeeks tl).map fun w => ((w, off), slotAnchor sh))

/-- First pass over the time locations of one course. -/
def pass1TLs : List TimeLocation → Except String (List ((Nat × Nat) × Option String))
  | [] => .ok []
  | tl :: tls =>
    match pass1TL tl with
    | .error m => .error m
    | .ok c1 =>
      match pass1TLs tls with
      | .error m => .error m
      | .ok c2 => .ok (c1 ++ c2)

/-- First pass of `generate_events`: the `daily_slots` mapping, modelled as
the list of its `((week, weekdayOffset), slot)` entries (only membership is
ever queried, so multiplicity and order are irrelevant). -/
def pass1 : List Course → Except String (List ((Nat × Nat) × Option String))
  | [] => .ok []
  | c :: cs =>
    match pass1TLs c.time_locations with
    | .error m => .error m
    | .ok c1 =>
      match pass1 cs with
      | .error m => .error m
      | .ok c2 => .ok (c1 ++ c2)

/-- The dedup identity key of src/main.py:464-471. -/
structure EvKey where
  name : String
  teacher : String
  week : Nat
  weekday : String
  startT : String
  endT : String
deriving DecidableEq, Repr

/-- One emitted calendar event (the `ics.Event` built in
src/main.py:496-542), with its date/time content made explicit.
`dayIndex` is the event date as a day count from the same Monday epoch as
the semester start; `alarmTrigger` is the `DisplayAlarm` trigger in minutes
(`some (-20)`) or `none` when no alarm is attached. -/
structure CalEvent where
  courseName : String
  teacher : String
  week : Nat
  weekday : String
  weekdayOffset : Nat
  startTimeStr : String
  endTimeStr : String
  summary : String
  dayIndex : Int
  startHour : Nat
  startMinute : Nat
  endHour : Nat
  endMinute : Nat
  alarmTrigger : Option Int
  location : String
  description : String
deriving DecidableEq, Repr

/-- Event construction for one non-duplicate expansion
(src/main.py:480-542). -/
def buildEvent (fm : Int) (ds : List ((Nat × Nat) × Option String)) (cname : String)
    (tl : TimeLocation) (off w sh sm eh em : Nat) (loc : String) : CalEvent :=
  let slot := slotAnchor sh
  let suppressed :=
    (slot = some "3-4" ∧ ((w, off), some "1-2") ∈ ds) ∨
    (slot = some "7-8" ∧ ((w, off), some "5-6") ∈ ds)
  { courseName := cname, teacher := tl.teacher, week := w, weekday := tl.weekday,
    weekdayOffset := off, startTimeStr := tl.start_time, endTimeStr := tl.end_time,
    summary := cname ++ "（" ++ tl.teacher ++ "）",
    dayIndex := fm + ((w : Int) - 1) * 7 + (off : Int),
    startHour := sh, startMinute := sm, endHour := eh, endMinute := em,
    alarmTrigger := if suppressed then none else some (-20),
    location := loc,
    description := "周次: 第" ++ Nat.repr w ++ "周\n时间: " ++ tl.weekday ++ " " ++ tl.time_str }

/-- The week loop of the second pass (src/main.py:462-542), threading the
`added_events` set (as a list of keys) and the emitted events.  The
start/end times are parsed, and `datetime.replace` bounds-checks hour and
minute, only for expansions that survive the dedup test. -/
def pass2Weeks (fm : Int) (ds : List ((Nat × Nat) × Option String)) (cname : String)
    (tl : TimeLocation) (off : Nat) :
    List Nat → List EvKey × List CalEvent → Except String (List EvKey × List CalEvent)
  | [], st => .ok st
  | w :: ws, (added, evs) =>
    let k : EvKey := ⟨cname, tl.teacher, w, tl.weekday, tl.start_time, tl.end_time⟩
    if k ∈ added then pass2Weeks fm ds cname tl off ws (added, evs)
    else
      match parseIntPair tl.start_time, parseIntPair tl.end_time with
      | some (sh, sm), some (eh, em) =>
        if sh < 24 ∧ sm < 60 ∧ eh < 24 ∧ em < 60 then
          match parse_classroom_location tl.location with
          | .ok loc =>
            pass2Weeks fm ds cname tl off ws
              (k :: added, evs ++ [buildEvent fm ds cname tl off w sh sm eh em loc])
          | .error m => .error m
        else .error "ValueError: replace"
      | _, _ => .error "ValueError: time"

/-- Second pass over one time location: weekday lookup, then week loop. -/
def pass2TL (fm : Int) (ds : List ((Nat × Nat) × Option String)) (cname : String)
    (tl : TimeLocation) (st : List EvKey × List CalEvent) :
    Except String (List EvKey × List CalEvent) :=
  match weekday_map.lookup tl.weekday with
  | none => .error "KeyError: weekday"
  | some off => pass2Weeks fm ds cname tl off (tlWeeks tl) st

/-- Second pass over the time locations of one course. -/
def pass2TLs (fm : Int) (ds : List ((Nat × Nat) × Option String)) (cname : String) :
    List TimeLocation → List EvKey × List CalEvent →
    Except String (List EvKey × List CalEvent)
  | [], st => .ok st
  | tl :: tls, st =>
    match pass2TL fm ds cname tl st with
    | .error m => .error m
    | .ok st' => pass2TLs fm ds cname tls st'

/-- Second pass over all courses. -/
def pass2Courses (fm : Int) (ds : List ((Nat × Nat) × Option String)) :
    List Course → List EvKey × List CalEvent →
    Except String (List EvKey × List CalEvent)
  | [], st => .ok st
  | c :: cs, st =>
    match pass2TLs fm ds c.name c.time_locations st with
    | .error m => .error m
    | .ok st' => pass2Courses fm ds cs st'

/-- `generate_events` (src/main.py:388-544).  The semester start date is a
day count from a fixed Monday epoch, so Python's `weekday()` is `% 7` and
the first Monday (src/main.py:406-407) is obtained by subtracting it.  The
emitted events are listed in insertion order; the `ics` calendar stores
them in a set keyed by unique ids, so the collection of events is the same. -/
def generate_events (courses : List Course) (semStartDay : Nat) :
    Except String (List CalEvent) :=
  let fm : Int := (semStartDay : Int) - ((semStartDay % 7 : Nat) : Int)
  match pass1 courses with
  | .error m => .error m
  | .ok ds =>
    match pass2Courses fm ds courses ([], []) with
    | .error m => .error m
    | .ok (_, evs) => .ok evs

/-! ### `calculate_total_weeks` and `format_course_summary`
(src/main.py:293-314, 546-578) -/

/-- The `all_weeks` set computation shared by `calculate_total_weeks`
(src/main.py:306-312) and `format_course_summary` (src/main.py:559-562):
the union over all week ranges of `range(start, end + 1)`. -/
def totalWeeksSet (tls : List TimeLocation) : Finset Nat :=
  tls.foldl (fun acc tl => tl.weeks.foldl (fun a p => a ∪ Finset.Icc p.1 p.2) acc) ∅

/-- `calculate_total_weeks` (src/main.py:293-314). -/
def calculate_total_weeks (time_locations : List TimeLocation) : Nat :=
  if time_locations.isEmpty then 0 else (totalWeeksSet time_locations).card

/-- The JSON summary object of `format_course_summary` (src/main.py:546-578).
Python joins `set(teachers)` in unspecified iteration order; only the set
contents are meaningful, modelled here as the deduplicated list. -/
structure CourseSummary where
  name : String
  teachers : List String
  total_weeks : Nat
  time_locations : List String
deriving DecidableEq, Repr

/-- `format_course_summary` (src/main.py:546-578). -/
def format_course_summary (course : Course) : CourseSummary :=
  { name := course.name,
    teachers := (course.time_locations.map (fun tl => tl.teacher)).dedup,
    total_weeks := (totalWeeksSet course.time_locations).card,
    time_locations := course.time_locations.map fun tl =>
      String.intercalate ", "
        (tl.weeks.map fun p => Nat.repr p.1 ++ "-" ++ Nat.repr p.2 ++ "周")
      ++ " " ++ tl.weekday ++ " " ++ tl.time_str ++ " " ++ tl.location }

/-! ### Spec-side definitions used to state the claims -/

/-- The value of `parse_classroom_location`; the error branch is unreachable
(see `parse_classroom_location_ok`). -/
def pclVal (s : String) : String :=
  match parse_classroom_location s with
  | .ok r => r
  | .error _ => ""

/-- The Chinese numeral (as written in the period expressions) for
`1 ≤ n ≤ 12`. -/
def cnNumeral : Nat → String
  | 1 => "一"
  | 2 => "二"
  | 3 => "三"
  | 4 => "四"
  | 5 => "五"
  | 6 => "六"
  | 7 => "七"
  | 8 => "八"
  | 9 => "九"
  | 10 => "十"
  | 11 => "十一"
  | 12 => "十二"
  | _ => ""

/-- The expected time resolution per the specification's words: the merged
table entry for key "X-Y" when defined, otherwise the start of single period
X and the end of single period Y.  The `getD` defaults are unreachable for
`1 ≤ x, y ≤ 12`, where both single-period lookups are defined. -/
def resolved_per_spec (x y : Nat) : String × String :=
  match merged_time_map.lookup (Nat.repr x ++ "-" ++ Nat.repr y) with
  | some p => p
  | none =>
    (((class_time_map.lookup x).getD ("", "")).1,
     ((class_time_map.lookup y).getD ("", "")).2)

/-- A concrete timetable text whose single block contains a period token
`第1节~第2节` written with Arabic numerals: it matches the block-level
`time_loc_pattern` (whose lazy time alternative is `第.*?节~.*?节`), but
`parse_time_slots` extracts no slot pair from it. -/
def c1FailingText : String :=
  "课程A\n123A4567\n1~8周 星期一 第1节~第2节 金海9408 张老师"

/-! ### Spec-side definitions for the instance-expansion claims -/

/-- One expansion item of the second pass of `generate_events`: a (course,
TimeLocation, week) triple in iteration order, with the resolved weekday
offset. -/
structure Expansion where
  cname : String
  tl : TimeLocation
  off : Nat
  week : Nat
deriving DecidableEq, Repr

/-- The identity key of an expansion (src/main.py:464-471). -/
def keyOfExp (e : Expansion) : EvKey :=
  ⟨e.cname, e.tl.teacher, e.week, e.tl.weekday, e.tl.start_time, e.tl.end_time⟩

/-- The identity key carried by an emitted event. -/
def keyOfEvent (ev : CalEvent) : EvKey :=
  ⟨ev.courseName, ev.teacher, ev.week, ev.weekday, ev.startTimeStr, ev.endTimeStr⟩

def keysOf (l : List Expansion) : List EvKey := l.map keyOfExp

/-- The expansion items of one `TimeLocation`, in iteration order.  The
`getD 0` default is unreachable whenever `generate_events` returns
normally, since the first pass looks every weekday label up. -/
def expOfTL (cname : String) (tl : TimeLocation) : List Expansion :=
  (tlWeeks tl).map fun w => ⟨cname, tl, (weekday_map.lookup tl.weekday).getD 0, w⟩

/-- All expansion items of the second pass, in iteration order. -/
def expansionsOf (cs : List Course) : List Expansion :=
  cs.flatMap fun c => c.time_locations.flatMap (expOfTL c.name)

/-- Keep the first expansion of each identity key, dropping later
duplicates (and any whose key is already in `seen`). -/
def dedupFirst (seen : List EvKey) : List Expansion → List Expansion
  | [] => []
  | e :: es =>
    if keyOfExp e ∈ seen then dedupFirst seen es
    else e :: dedupFirst (keyOfExp e :: seen) es

/-- Event construction from an expansion item.  The `getD` defaults are
unreachable for expansions that `generate_events` materializes (their time
strings parsed successfully there). -/
def buildD (fm : Int) (ds : List ((Nat × Nat) × Option String)) (e : Expansion) : CalEvent :=
  let shm := (parseIntPair e.tl.start_time).getD (0, 0)
  let ehm := (parseIntPair e.tl.end_time).getD (0, 0)
  buildEvent fm ds e.cname e.tl e.off e.week shm.1 shm.2 ehm.1 ehm.2 (pclVal e.tl.location)

/-- The first-pass contribution of one `TimeLocation` (the value
`pass1TL` returns when it does not raise). -/
def pass1TLContrib (tl : TimeLocation) : List ((Nat × Nat) × Option String) :=
  (tlWeeks tl).map fun w =>
    ((w, (weekday_map.lookup tl.weekday).getD 0),
     slotAnchor ((parseIntPair tl.start_time).getD (0, 0)).1)

/-- The `daily_slots` entries of the first pass as a total function of the
course list. -/
def dailySlotsD (cs : List Course) : List ((Nat × Nat) × Option String) :=
  cs.flatMap fun c => c.time_locations.flatMap pass1TLContrib

/-- Per the specification's words: merged block `lbl` is occupied on day
(week `wk`, weekday offset `off`) when some course has a `TimeLocation` on
that weekday whose start hour anchors to `lbl` and whose week ranges cover
`wk`. -/
def slotOccupied (cs : List Course) (wk off : Nat) (lbl : String) : Bool :=
  cs.any fun c => c.time_locations.any fun tl =>
    decide ((weekday_map.lookup tl.weekday).getD 0 = off) &&
    decide (slotAnchor ((parseIntPair tl.start_time).getD (0, 0)).1 = some lbl) &&
    tl.weeks.any fun p => decide (p.1 ≤ wk) && decide (wk ≤ p.2)

/-! ### Concrete inputs for the claim witnesses -/

/-- A course with overlapping week ranges (weeks 2–3 covered twice). -/
def c3Input : List Course :=
  [⟨"算法设计", [⟨[(1, 3), (2, 4)], "星期一", some [(1, 2)], "08:00", "09:30",
      "08:00-09:30", "金海9408", "张老师"⟩]⟩]

/-- A day with a `1-2` instance, a `3-4` instance and an anchor-less
instance (start hour 10). -/
def c4Input : List Course :=
  [⟨"高等数学", [⟨[(1, 1)], "星期一", some [(1, 2)], "08:00", "09:30",
      "08:00-09:30", "金海9408", "张老师"⟩]⟩,
   ⟨"大学物理", [⟨[(1, 1)], "星期一", some [(3, 4)], "09:40", "11:10",
      "09:40-11:10", "金海9409", "李老师"⟩]⟩,
   ⟨"实验课", [⟨[(1, 1)], "星期一", none, "10:00", "12:00",
      "10:00-12:00", "金海9410", "王老师"⟩]⟩]

/-- Two time locations producing the same identity key but different
locations and time strings: only the first is materialized. -/
def c10Input : List Course :=
  [⟨"英语", [⟨[(1, 1)], "星期二", some [(1, 2)], "08:00", "09:30",
      "08:00-09:30", "金海9408", "陈老师"⟩,
    ⟨[(1, 1)], "星期二", none, "08:00", "09:30",
      "08:00~09:30", "金海8305", "陈老师"⟩]⟩]

/-- The event list of a `generate_events` result (empty on error). -/
def evListOf (r : Except String (List CalEvent)) : List CalEvent :=
  match r with
  | .ok evs => evs
  | .error _ => []

def c3Events : List CalEvent := evListOf (generate_events c3Input 0)

def c4Events : List CalEvent := evListOf (generate_events c4Input 0)

def c10Events : List CalEvent := evListOf (generate_events c10Input 0)

/-- The `3-4`-block instance of `c4Input` (its reminder is suppressed by the
`1-2` instance on the same day). -/
def c4ev : CalEvent :=
  { courseName := "大学物理", teacher := "李老师", week := 1, weekday := "星期一",
    weekdayOffset := 0, startTimeStr := "09:40", endTimeStr := "11:10",
    summary := "大学物理（李老师）", dayIndex := 0, startHour := 9, startMinute := 40,
    endHour := 11, endMinute := 10, alarmTrigger := none,
    location := "上海杉达学院金海校区胜祥商学院楼 4楼09教室",
    description := "周次: 第1周\n时间: 星期一 09:40-11:10" }

/-- The anchor-less instance of `c4Input` (start hour 10 matches no anchor;
it keeps its reminder). -/
def c4evLab : CalEvent :=
  { courseName := "实验课", teacher := "王老师", week := 1, weekday := "星期一",
    weekdayOffset := 0, startTimeStr := "10:00", endTimeStr := "12:00",
    summary := "实验课（王老师）", dayIndex := 0, startHour := 10, startMinute := 0,
    endHour := 12, endMinute := 0, alarmTrigger := some (-20),
    location := "上海杉达学院金海校区胜祥商学院楼 4楼10教室",
    description := "周次: 第1周\n时间: 星期一 10:00-12:00" }

/-- A course with overlapping week ranges across two time locations
(weeks 1–3 and 2–5: five distinct weeks). -/
def c8CourseA : Course :=
  ⟨"数据结构", [⟨[(1, 3)], "星期一", some [(1, 2)], "08:00", "09:30",
      "08:00-09:30", "金海9408", "张老师"⟩,
    ⟨[(2, 5)], "星期三", some [(3, 4)], "09:40", "11:10",
      "09:40-11:10", "金海9409", "张老师"⟩]⟩

/-- The same week ranges in the opposite order. -/
def c8CourseB : Course :=
  ⟨"数据结构", [⟨[(2, 5)], "星期三", some [(3, 4)], "09:40", "11:10",
      "09:40-11:10", "金海9409", "张老师"⟩,
    ⟨[(1, 3)], "星期一", some [(1, 2)], "08:00", "09:30",
      "08:00-09:30", "金海9408", "张老师"⟩]⟩

/-! ## Helper lemmas -/

theorem parse_classroom_location_isOk (s : String) :
    ∃ r, parse_classroom_location s = Except.ok r := by
  simp only [parse_classroom_location]
  split
  · exact ⟨_, rfl⟩
  · split
    · exact ⟨_, rfl⟩
    · exact ⟨_, rfl⟩

theorem parse_classroom_location_eq_ok (s : String) :
    parse_classroom_location s = Except.ok (pclVal s) := by
  obtain ⟨r, hr⟩ := parse_classroom_location_isOk s
  unfold pclVal
  rw [hr]

theorem trimChars_of_all_space {cs : List Char}
    (h : ∀ c ∈ cs, isPySpace c = true) : trimChars cs = [] := by
  have h1 : cs.dropWhile isPySpace = [] :=
    List.dropWhile_eq_nil_iff.mpr (fun x hx => h x hx)
  simp [trimChars, h1]

theorem splitOnChar_ne_nil (sep : Char) (cs : List Char) :
    splitOnChar sep cs ≠ [] := by
  cases cs with
  | nil => simp [splitOnChar]
  | cons c t =>
    simp only [splitOnChar]
    split
    · simp
    · split
      · simp
      · simp

/-! ## Claim theorems -/

/-- C7: `parse_classroom_location` is total: for every input string —
including strings whose remainder after stripping the campus marker has a
length other than 4 or 5, and strings with non-numeric building codes — it
returns a string and never raises an exception to its caller. -/
theorem c7_parse_classroom_location_total (location : String) :
    ∃ r, parse_classroom_location location = Except.ok r :=
  ⟨pclVal location, parse_classroom_location_eq_ok location⟩

/-- C6 counterexample: `_convert_cn_num` maps the token `十三`, which is not
in the numeral table, to 13 — not to the default value 1 as the claim
states for every unrecognized token. -/
theorem c6_counterexample :
    convert_cn_num "十三" = 13 ∧ (13 : Nat) ≠ 1 := by
  exact ⟨rfl, by decide⟩

/-- C6 (amended): `_convert_cn_num` maps each entry of the numeral table
(`一`..`九` to 1..9, `十` to 10, `十一` to 11, `十二` to 12) to its value;
a token outside the table that contains `十` maps to 10 plus the table value
of its second character (or 10 when the second character is not a
single-character table entry); every token outside the table not containing
`十` maps to the default value 1. -/
theorem c6_convert_cn_num_amended :
    (∀ p ∈ cn_num_map, convert_cn_num p.1 = p.2) ∧
    (∀ s : String, cn_num_map.lookup s = none → s.data.contains '十' = false →
      convert_cn_num s = 1) ∧
    (∀ s : String, cn_num_map.lookup s = none → s.data.contains '十' = true →
      convert_cn_num s =
        match s.data with
        | _ :: second :: _ => 10 + (cn_num_map.lookup (String.mk [second])).getD 0
        | _ => 10) := by
  refine ⟨by decide, ?_, ?_⟩
  · intro s h1 h2
    have hnm : '十' ∉ s.data := by simpa using h2
    simp [convert_cn_num, h1, hnm]
  · intro s h1 h2
    obtain ⟨sd⟩ := s
    simp only [convert_cn_num, h1, h2]
    cases sd with
    | nil => rfl
    | cons a t =>
      cases t with
      | nil => rfl
      | cons b t2 =>
        cases h : cn_num_map.lookup (String.mk [b]) with
        | none => simp [h]
        | some v => simp [h]

/-- Witness for C6 (amended): one token from each of the three regimes. -/
theorem c6_amended_witness :
    convert_cn_num "三" = 3 ∧ convert_cn_num "甲" = 1 ∧ convert_cn_num "十三" = 13 := by
  refine ⟨?_, ?_, ?_⟩
  · exact c6_convert_cn_num_amended.1 ("三", 3) (by decide)
  · exact c6_convert_cn_num_amended.2.1 "甲" (by decide) (by decide)
  · exact (c6_convert_cn_num_amended.2.2 "十三" (by decide) (by decide)).trans (by decide)

/-- C9 counterexample: on an empty block, `extract_course_name` returns the
empty string, not the fallback name `未知课程` the claim requires — Python's
`"".split('\n')` is `[""]`, so the `if not lines` guard never fires. -/
theorem c9_counterexample :
    extract_course_name "" = "" ∧ ("" : String) ≠ "未知课程" := by
  exact ⟨rfl, by decide⟩

/-- C9 (amended): for an empty or whitespace-only block,
`extract_course_name` returns the empty string (the no-lines guard is
unreachable: splitting any string on newlines yields at least one piece);
when the first stripped line is a header placeholder it returns the second
line stripped if one exists — even if that line is itself a header — and
`未知课程` otherwise; in every other case it returns the first stripped
line. -/
theorem c9_extract_course_name_amended :
    (∀ b : String, (∀ c ∈ b.data, isPySpace c = true) → extract_course_name b = "") ∧
    (∀ b : String, splitOnChar '\n' (pyStrip b).data ≠ []) ∧
    extract_course_name "课程信息" = "未知课程" ∧
    extract_course_name "课程信息\n高等数学" = "高等数学" ∧
    extract_course_name "课程信息\n教学班\n高等数学" = "教学班" ∧
    extract_course_name "高等数学\n课程信息" = "高等数学" := by
  refine ⟨?_, ?_, rfl, rfl, rfl, rfl⟩
  · intro b hb
    have ht : trimChars b.data = [] := trimChars_of_all_space hb
    unfold extract_course_name pyStrip
    rw [ht]
    rfl
  · intro b
    exact splitOnChar_ne_nil '\n' _

/-- Witness for C9 (amended): a whitespace-only block. -/
theorem c9_amended_witness : extract_course_name "  \n  " = "" :=
  c9_extract_course_name_amended.1 "  \n  " (by decide)

/-- C1: the claim fails on the code.  On this text the block matches the
composite pattern with time token `第1节~第2节`; `parse_time_slots` extracts
nothing from it, the `if time_slots:` branch of src/main.py:259 has no else,
and the subsequent read of `start_time` raises `UnboundLocalError` instead
of applying a fallback. -/
theorem c1_parse_course_info_raises :
    parse_course_info c1FailingText = Except.error "UnboundLocalError: start_time" := by
  rfl

/-- C5: for every period expression `第X节~第Y节` (second `第` optional)
with X and Y Chinese numerals for 1–12, the slot parser extracts exactly the
pair (X, Y) and the resolution step yields the merged-table entry for key
"X-Y" when defined, otherwise the single-period fallback
(`class_time_map[X].start`, `class_time_map[Y].end`). -/
theorem c5_period_resolution (x y : Nat)
    (hx1 : 1 ≤ x) (hx2 : x ≤ 12) (hy1 : 1 ≤ y) (hy2 : y ≤ 12) :
    parse_time_slots ("第" ++ cnNumeral x ++ "节~第" ++ cnNumeral y ++ "节") = [(x, y)] ∧
    parse_time_slots ("第" ++ cnNumeral x ++ "节~" ++ cnNumeral y ++ "节") = [(x, y)] ∧
    resolveSlots [(x, y)] = Except.ok (resolved_per_spec x y) := by
  obtain ⟨a, rfl⟩ : ∃ a, x = a + 1 := ⟨x - 1, by omega⟩
  obtain ⟨b, rfl⟩ : ∃ b, y = b + 1 := ⟨y - 1, by omega⟩
  have key : ∀ a ∈ List.range 12, ∀ b ∈ List.range 12,
      parse_time_slots ("第" ++ cnNumeral (a + 1) ++ "节~第" ++ cnNumeral (b + 1) ++ "节")
          = [(a + 1, b + 1)] ∧
      parse_time_slots ("第" ++ cnNumeral (a + 1) ++ "节~" ++ cnNumeral (b + 1) ++ "节")
          = [(a + 1, b + 1)] ∧
      resolveSlots [(a + 1, b + 1)] = Except.ok (resolved_per_spec (a + 1) (b + 1)) := by
    decide
  exact key a (List.mem_range.mpr (by omega)) b (List.mem_range.mpr (by omega))

/-- Witness for C5: periods 1–2 resolve through the merged table. -/
theorem c5_witness :
    parse_time_slots "第一节~第二节" = [(1, 2)] ∧
    parse_time_slots "第一节~二节" = [(1, 2)] ∧
    resolveSlots [(1, 2)] = Except.ok (resolved_per_spec 1 2) :=
  c5_period_resolution 1 2 (by decide) (by decide) (by decide) (by decide)

/-! ## Scan lemmas for `parse_weeks` (claim C2) -/

theorem head_pred_of_cons {p : Char → Bool} {c : Char} {t : List Char}
    (h : p c = false) :
    ∀ x, ((c :: t).head? = some x) → p x = false := by
  intro x hx
  simp only [List.head?_cons, Option.some.injEq] at hx
  subst hx
  exact h

theorem takeWhile_all_head (p : Char → Bool) (ds t : List Char)
    (hds : ∀ c ∈ ds, p c = true)
    (ht : ∀ c, t.head? = some c → p c = false) :
    (ds ++ t).takeWhile p = ds := by
  induction ds with
  | nil =>
    cases t with
    | nil => rfl
    | cons c r => simp [List.takeWhile_cons, ht c rfl]
  | cons d ds ih =>
    have hd : p d = true := hds d (List.mem_cons_self d ds)
    simp [List.takeWhile_cons, hd, ih (fun c hc => hds c (List.mem_cons_of_mem d hc))]

theorem dropWhile_all_head (p : Char → Bool) (ds t : List Char)
    (hds : ∀ c ∈ ds, p c = true)
    (ht : ∀ c, t.head? = some c → p c = false) :
    (ds ++ t).dropWhile p = t := by
  induction ds with
  | nil =>
    cases t with
    | nil => rfl
    | cons c r => simp [List.dropWhile_cons, ht c rfl]
  | cons d ds ih =>
    have hd : p d = true := hds d (List.mem_cons_self d ds)
    simp [List.dropWhile_cons, hd, ih (fun c hc => hds c (List.mem_cons_of_mem d hc))]

theorem scan_exhaust (m : List Char → Option (α × List Char)) (cs : List Char)
    (skip : Nat) (h : cs.length ≤ skip) : scanWith m cs skip = [] := by
  induction cs generalizing skip with
  | nil => cases skip <;> rfl
  | cons c cs ih =>
    cases skip with
    | zero => simp at h
    | succ k => exact ih k (by simpa using h)

theorem scan_cons_none {m : List Char → Option (α × List Char)} {c : Char}
    {cs : List Char} (h : m (c :: cs) = none) :
    scanWith m (c :: cs) 0 = scanWith m cs 0 := by
  simp [scanWith, h]

theorem scan_cons_some {m : List Char → Option (α × List Char)} {c : Char}
    {cs : List Char} {a : α} {rest : List Char} (h : m (c :: cs) = some (a, rest)) :
    scanWith m (c :: cs) 0 = a :: scanWith m cs ((c :: cs).length - rest.length - 1) := by
  simp [scanWith, h]

theorem matchRangeAt_head_not_digit {c : Char} {t : List Char}
    (h : Char.isDigit c = false) : matchRangeAt (c :: t) = none := by
  simp [matchRangeAt, List.takeWhile_cons, h]

theorem matchSingleAt_head_not_digit {c : Char} {t : List Char}
    (h : Char.isDigit c = false) : matchSingleAt (c :: t) = none := by
  simp [matchSingleAt, List.takeWhile_cons, h]

theorem matchSingleAt_digits_then_tilde {ds t : List Char}
    (hds : ∀ c ∈ ds, Char.isDigit c = true) :
    matchSingleAt (ds ++ '~' :: t) = none := by
  have htk : (ds ++ '~' :: t).takeWhile Char.isDigit = ds :=
    takeWhile_all_head Char.isDigit ds ('~' :: t) hds (head_pred_of_cons (by decide))
  have hdr : (ds ++ '~' :: t).dropWhile Char.isDigit = '~' :: t :=
    dropWhile_all_head Char.isDigit ds ('~' :: t) hds (head_pred_of_cons (by decide))
  simp only [matchSingleAt, htk, hdr]
  cases ds <;> simp

theorem matchRangeAt_digits_then_zhou {ds t : List Char}
    (hds : ∀ c ∈ ds, Char.isDigit c = true) :
    matchRangeAt (ds ++ '周' :: t) = none := by
  have htk : (ds ++ '周' :: t).takeWhile Char.isDigit = ds :=
    takeWhile_all_head Char.isDigit ds ('周' :: t) hds (head_pred_of_cons (by decide))
  have hdr : (ds ++ '周' :: t).dropWhile Char.isDigit = '周' :: t :=
    dropWhile_all_head Char.isDigit ds ('周' :: t) hds (head_pred_of_cons (by decide))
  simp only [matchRangeAt, htk, hdr]
  cases ds <;> simp

theorem scanSingles_skip_digits_tilde {ds t : List Char}
    (hds : ∀ c ∈ ds, Char.isDigit c = true) :
    scanWith matchSingleAt (ds ++ '~' :: t) 0 = scanWith matchSingleAt t 0 := by
  induction ds with
  | nil => exact scan_cons_none (matchSingleAt_head_not_digit (by decide))
  | cons d ds' ih =>
    have hstep : matchSingleAt ((d :: ds') ++ '~' :: t) = none :=
      @matchSingleAt_digits_then_tilde (d :: ds') t hds
    rw [show (d :: ds') ++ '~' :: t = d :: (ds' ++ '~' :: t) from rfl] at hstep
    rw [show (d :: ds') ++ '~' :: t = d :: (ds' ++ '~' :: t) from rfl]
    rw [scan_cons_none hstep]
    exact ih (fun c hc => hds c (List.mem_cons_of_mem d hc))

theorem scanRanges_skip_digits_zhou {ds t : List Char}
    (hds : ∀ c ∈ ds, Char.isDigit c = true) :
    scanWith matchRangeAt (ds ++ '周' :: t) 0 = scanWith matchRangeAt ('周' :: t) 0 := by
  induction ds with
  | nil => rfl
  | cons d ds' ih =>
    have hstep : matchRangeAt ((d :: ds') ++ '周' :: t) = none :=
      @matchRangeAt_digits_then_zhou (d :: ds') t hds
    rw [show (d :: ds') ++ '周' :: t = d :: (ds' ++ '周' :: t) from rfl] at hstep
    rw [show (d :: ds') ++ '周' :: t = d :: (ds' ++ '周' :: t) from rfl]
    rw [scan_cons_none hstep]
    exact ih (fun c hc => hds c (List.mem_cons_of_mem d hc))

theorem matchRangeAt_full {ds es : List Char} (hdne : ds ≠ []) (hene : es ≠ [])
    (hds : ∀ c ∈ ds, Char.isDigit c = true) (hes : ∀ c ∈ es, Char.isDigit c = true) :
    matchRangeAt (ds ++ '~' :: (es ++ ['周'])) =
      some ((digitsToNat ds, digitsToNat es), []) := by
  have htk1 : (ds ++ '~' :: (es ++ ['周'])).takeWhile Char.isDigit = ds :=
    takeWhile_all_head Char.isDigit ds _ hds (head_pred_of_cons (by decide))
  have hdr1 : (ds ++ '~' :: (es ++ ['周'])).dropWhile Char.isDigit = '~' :: (es ++ ['周']) :=
    dropWhile_all_head Char.isDigit ds _ hds (head_pred_of_cons (by decide))
  have htk2 : (es ++ ['周']).takeWhile Char.isDigit = es :=
    takeWhile_all_head Char.isDigit es _ hes (head_pred_of_cons (by decide))
  have hdr2 : (es ++ ['周']).dropWhile Char.isDigit = ['周'] :=
    dropWhile_all_head Char.isDigit es _ hes (head_pred_of_cons (by decide))
  have h1 : ds.isEmpty = false := by cases ds <;> simp_all
  have h2 : es.isEmpty = false := by cases es <;> simp_all
  simp only [matchRangeAt, htk1, hdr1, htk2, hdr2, h1]
  simp [h2]

theorem matchSingleAt_digits_zhou_end {ds : List Char} (hdne : ds ≠ [])
    (hds : ∀ c ∈ ds, Char.isDigit c = true) :
    matchSingleAt (ds ++ ['周']) = some ((digitsToNat ds, digitsToNat ds), []) := by
  have htk : (ds ++ ['周']).takeWhile Char.isDigit = ds :=
    takeWhile_all_head Char.isDigit ds _ hds (head_pred_of_cons (by decide))
  have hdr : (ds ++ ['周']).dropWhile Char.isDigit = ['周'] :=
    dropWhile_all_head Char.isDigit ds _ hds (head_pred_of_cons (by decide))
  have h1 : ds.isEmpty = false := by cases ds <;> simp_all
  simp only [matchSingleAt, htk, hdr, h1]
  simp

/-- C2 counterexample: the weeks string `1~8周` does not yield exactly the
single pair [(1, 8)]: the trailing `8周` also matches the single-week
pattern (the negative lookahead `(?!\s*~)` looks forward, but the `~` of the
range lies before `8周`, not after it). -/
theorem c2_counterexample :
    parse_weeks "1~8周" = [(1, 8), (8, 8)] ∧
    ([(1, 8), (8, 8)] : List (Nat × Nat)) ≠ [(1, 8)] := by
  exact ⟨rfl, by decide⟩

/-- C2 (amended): for every weeks token `A~B周` (A, B non-empty digit runs),
`parse_weeks` yields the range pair (A, B) followed by the single-week pair
(B, B) — the trailing `B周` also matches the single-week sub-pattern; for a
token `N周` alone it yields exactly [(N, N)]; and a combined token yields all
range-pattern matches in encounter order followed by all single-week matches
in encounter order — not the interleaved encounter order of the original
claim, as the concrete combined token `1周 3~4周` shows. -/
theorem c2_parse_weeks_amended :
    (∀ ds es : List Char, ds ≠ [] → es ≠ [] →
      (∀ c ∈ ds, Char.isDigit c = true) → (∀ c ∈ es, Char.isDigit c = true) →
      parse_weeks (String.mk (ds ++ '~' :: (es ++ ['周']))) =
        [(digitsToNat ds, digitsToNat es), (digitsToNat es, digitsToNat es)]) ∧
    (∀ ds : List Char, ds ≠ [] → (∀ c ∈ ds, Char.isDigit c = true) →
      parse_weeks (String.mk (ds ++ ['周'])) = [(digitsToNat ds, digitsToNat ds)]) ∧
    parse_weeks "1周 3~4周" = [(3, 4), (1, 1), (4, 4)] := by
  refine ⟨?_, ?_, rfl⟩
  · intro ds es hdne hene hds hes
    show scanWith matchRangeAt (ds ++ '~' :: (es ++ ['周'])) 0 ++
        scanWith matchSingleAt (ds ++ '~' :: (es ++ ['周'])) 0 = _
    have hranges : scanWith matchRangeAt (ds ++ '~' :: (es ++ ['周'])) 0 =
        [(digitsToNat ds, digitsToNat es)] := by
      obtain ⟨d, ds', rfl⟩ := List.exists_cons_of_ne_nil hdne
      have hm : matchRangeAt (d :: (ds' ++ '~' :: (es ++ ['周']))) =
          some ((digitsToNat (d :: ds'), digitsToNat es), []) := by
        rw [show d :: (ds' ++ '~' :: (es ++ ['周'])) = (d :: ds') ++ '~' :: (es ++ ['周'])
          from rfl]
        exact matchRangeAt_full hdne hene hds hes
      rw [show (d :: ds') ++ '~' :: (es ++ ['周']) = d :: (ds' ++ '~' :: (es ++ ['周']))
        from rfl]
      rw [scan_cons_some hm, scan_exhaust _ _ _ (by simp)]
    have hsingles : scanWith matchSingleAt (ds ++ '~' :: (es ++ ['周'])) 0 =
        [(digitsToNat es, digitsToNat es)] := by
      rw [scanSingles_skip_digits_tilde hds]
      obtain ⟨e, es', rfl⟩ := List.exists_cons_of_ne_nil hene
      have hm : matchSingleAt (e :: (es' ++ ['周'])) =
          some ((digitsToNat (e :: es'), digitsToNat (e :: es')), []) := by
        rw [show e :: (es' ++ ['周']) = (e :: es') ++ ['周'] from rfl]
        exact matchSingleAt_digits_zhou_end hene hes
      rw [show (e :: es') ++ ['周'] = e :: (es' ++ ['周']) from rfl]
      rw [scan_cons_some hm, scan_exhaust _ _ _ (by simp)]
    rw [hranges, hsingles]
    rfl
  · intro ds hdne hds
    show scanWith matchRangeAt (ds ++ ['周']) 0 ++
        scanWith matchSingleAt (ds ++ ['周']) 0 = _
    have hranges : scanWith matchRangeAt (ds ++ ['周']) 0 = [] := by
      rw [show ds ++ ['周'] = ds ++ '周' :: [] from rfl,
        scanRanges_skip_digits_zhou hds]
      exact scan_cons_none (matchRangeAt_head_not_digit (by decide))
    have hsingles : scanWith matchSingleAt (ds ++ ['周']) 0 =
        [(digitsToNat ds, digitsToNat ds)] := by
      obtain ⟨d, ds', rfl⟩ := List.exists_cons_of_ne_nil hdne
      have hm : matchSingleAt (d :: (ds' ++ ['周'])) =
          some ((digitsToNat (d :: ds'), digitsToNat (d :: ds')), []) := by
        rw [show d :: (ds' ++ ['周']) = (d :: ds') ++ ['周'] from rfl]
        exact matchSingleAt_digits_zhou_end hdne hds
      rw [show (d :: ds') ++ ['周'] = d :: (ds' ++ ['周']) from rfl]
      rw [scan_cons_some hm, scan_exhaust _ _ _ (by simp)]
    rw [hranges, hsingles]
    rfl

/-- Witness for C2 (amended): the concrete tokens `1~8周` and `9周`. -/
theorem c2_amended_witness :
    parse_weeks "1~8周" = [(1, 8), (8, 8)] ∧ parse_weeks "9周" = [(9, 9)] := by
  constructor
  · exact c2_parse_weeks_amended.1 ['1'] ['8'] (by decide) (by decide)
      (by decide) (by decide)
  · exact c2_parse_weeks_amended.2.1 ['9'] (by decide) (by decide)

/-! ## Lemmas about `generate_events` (claims C3, C4, C10) -/

theorem mem_weekRange {w s e : Nat} : w ∈ weekRange s e ↔ s ≤ w ∧ w ≤ e := by
  constructor
  · intro h
    simp only [weekRange, List.mem_map, List.mem_range] at h
    obtain ⟨i, hi, rfl⟩ := h
    omega
  · intro h
    simp only [weekRange, List.mem_map, List.mem_range]
    exact ⟨w - s, by omega, by omega⟩

theorem pass1TL_ok {tl : TimeLocation} {l : List ((Nat × Nat) × Option String)}
    (h : pass1TL tl = Except.ok l) : l = pass1TLContrib tl := by
  unfold pass1TL at h
  cases h1 : weekday_map.lookup tl.weekday with
  | none => rw [h1] at h; simp at h
  | some off =>
    rw [h1] at h
    cases h2 : parseIntPair tl.start_time with
    | none => rw [h2] at h; simp at h
    | some p =>
      obtain ⟨sh, sm⟩ := p
      rw [h2] at h
      simp only [Except.ok.injEq] at h
      subst h
      simp [pass1TLContrib, h1, h2]

theorem pass1TLs_ok : ∀ {tls : List TimeLocation} {l},
    pass1TLs tls = Except.ok l → l = tls.flatMap pass1TLContrib := by
  intro tls
  induction tls with
  | nil => intro l h; simp only [pass1TLs, Except.ok.injEq] at h; simp [← h]
  | cons tl tls ih =>
    intro l h
    unfold pass1TLs at h
    cases h1 : pass1TL tl with
    | error m => rw [h1] at h; simp at h
    | ok c1 =>
      rw [h1] at h
      cases h2 : pass1TLs tls with
      | error m => rw [h2] at h; simp at h
      | ok c2 =>
        rw [h2] at h
        simp only [Except.ok.injEq] at h
        subst h
        rw [pass1TL_ok h1, ih h2]
        simp

theorem pass1_ok : ∀ {cs : List Course} {ds},
    pass1 cs = Except.ok ds → ds = dailySlotsD cs := by
  intro cs
  induction cs with
  | nil => intro ds h; simp only [pass1, Except.ok.injEq] at h; simp [← h, dailySlotsD]
  | cons c cs ih =>
    intro ds h
    unfold pass1 at h
    cases h1 : pass1TLs c.time_locations with
    | error m => rw [h1] at h; simp at h
    | ok c1 =>
      rw [h1] at h
      cases h2 : pass1 cs with
      | error m => rw [h2] at h; simp at h
      | ok c2 =>
        rw [h2] at h
        simp only [Except.ok.injEq] at h
        subst h
        rw [pass1TLs_ok h1, ih h2]
        simp [dailySlotsD]

theorem mem_dailySlotsD {cs : List Course} {wk off : Nat} {lbl : String} :
    ((wk, off), some lbl) ∈ dailySlotsD cs ↔ slotOccupied cs wk off lbl = true := by
  unfold dailySlotsD slotOccupied pass1TLContrib tlWeeks
  simp only [List.mem_flatMap, List.mem_map, List.any_eq_true, Bool.and_eq_true,
    decide_eq_true_eq, Prod.mk.injEq]
  constructor
  · rintro ⟨c, hc, tl, htl, w, hw, heq⟩
    obtain ⟨⟨hww, hoff⟩, hsl⟩ := heq
    obtain ⟨p, hp, hwr⟩ := hw
    rw [mem_weekRange] at hwr
    subst hww
    exact ⟨c, hc, tl, htl, ⟨hoff, hsl⟩, p, hp, hwr.1, hwr.2⟩
  · rintro ⟨c, hc, tl, htl, ⟨hoff, hsl⟩, p, hp, hw1, hw2⟩
    exact ⟨c, hc, tl, htl, wk, ⟨p, hp, mem_weekRange.mpr ⟨hw1, hw2⟩⟩, ⟨rfl, hoff⟩, hsl⟩

theorem pass2Weeks_ok {fm : Int} {ds : List ((Nat × Nat) × Option String)}
    {cname : String} {tl : TimeLocation} {off : Nat} :
    ∀ {ws : List Nat} {added : List EvKey} {evs : List CalEvent} {added' evs'},
    pass2Weeks fm ds cname tl off ws (added, evs) = Except.ok (added', evs') →
    evs' = evs ++ (dedupFirst added (ws.map fun w =>
        (⟨cname, tl, off, w⟩ : Expansion))).map (buildD fm ds) ∧
    added' = (keysOf (dedupFirst added (ws.map fun w =>
        (⟨cname, tl, off, w⟩ : Expansion)))).reverse ++ added := by
  intro ws
  induction ws with
  | nil =>
    intro added evs added' evs' h
    simp only [pass2Weeks, Except.ok.injEq, Prod.mk.injEq] at h
    obtain ⟨ha, he⟩ := h
    subst ha; subst he
    simp [dedupFirst, keysOf]
  | cons w ws ih =>
    intro added evs added' evs' h
    by_cases hk : (⟨cname, tl.teacher, w, tl.weekday, tl.start_time, tl.end_time⟩ : EvKey)
        ∈ added
    · have hd : dedupFirst added ((w :: ws).map fun w => (⟨cname, tl, off, w⟩ : Expansion))
          = dedupFirst added (ws.map fun w => (⟨cname, tl, off, w⟩ : Expansion)) := by
        simp only [List.map_cons, dedupFirst, keyOfExp]
        rw [if_pos hk]
      rw [hd]
      simp only [pass2Weeks] at h
      rw [if_pos hk] at h
      exact ih h
    · have hd : dedupFirst added ((w :: ws).map fun w => (⟨cname, tl, off, w⟩ : Expansion))
          = (⟨cname, tl, off, w⟩ : Expansion) ::
            dedupFirst ((⟨cname, tl.teacher, w, tl.weekday, tl.start_time,
              tl.end_time⟩ : EvKey) :: added)
              (ws.map fun w => (⟨cname, tl, off, w⟩ : Expansion)) := by
        simp only [List.map_cons, dedupFirst, keyOfExp]
        rw [if_neg hk]
      simp only [pass2Weeks] at h
      rw [if_neg hk] at h
      cases h2 : parseIntPair tl.start_time with
      | none => rw [h2] at h; simp at h
      | some p =>
        obtain ⟨sh, sm⟩ := p
        rw [h2] at h
        cases h3 : parseIntPair tl.end_time with
        | none => rw [h3] at h; simp at h
        | some q =>
          obtain ⟨eh, em⟩ := q
          rw [h3] at h
          dsimp only at h
          by_cases hb : sh < 24 ∧ sm < 60 ∧ eh < 24 ∧ em < 60
          · rw [if_pos hb, parse_classroom_location_eq_ok tl.location] at h
            obtain ⟨he, ha⟩ := ih h
            have hbuild : buildEvent fm ds cname tl off w sh sm eh em (pclVal tl.location)
                = buildD fm ds ⟨cname, tl, off, w⟩ := by
              simp [buildD, h2, h3]
            constructor
            · rw [he, hd]
              simp [hbuild]
            · rw [ha, hd]
              simp [keysOf, keyOfExp, List.reverse_cons, List.append_assoc]
          · rw [if_neg hb] at h
            simp at h

theorem dedupFirst_append (seen : List EvKey) (a b : List Expansion) :
    dedupFirst seen (a ++ b) =
      dedupFirst seen a ++
        dedupFirst ((keysOf (dedupFirst seen a)).reverse ++ seen) b := by
  induction a generalizing seen with
  | nil => simp [dedupFirst, keysOf]
  | cons e a ih =>
    by_cases hk : keyOfExp e ∈ seen
    · simp only [List.cons_append, dedupFirst, if_pos hk]
      exact ih seen
    · simp only [List.cons_append, dedupFirst, if_neg hk]
      rw [show a.append b = a ++ b from rfl, ih (keyOfExp e :: seen)]
      have harg : (keysOf (dedupFirst (keyOfExp e :: seen) a)).reverse ++
            (keyOfExp e :: seen)
          = (keysOf (e :: dedupFirst (keyOfExp e :: seen) a)).reverse ++ seen := by
        simp [keysOf, List.reverse_cons, List.append_assoc]
      rw [harg]

theorem pass2TL_ok {fm : Int} {ds : List ((Nat × Nat) × Option String)}
    {cname : String} {tl : TimeLocation} {added : List EvKey} {evs : List CalEvent}
    {added' : List EvKey} {evs' : List CalEvent}
    (h : pass2TL fm ds cname tl (added, evs) = Except.ok (added', evs')) :
    evs' = evs ++ (dedupFirst added (expOfTL cname tl)).map (buildD fm ds) ∧
    added' = (keysOf (dedupFirst added (expOfTL cname tl))).reverse ++ added := by
  unfold pass2TL at h
  cases h1 : weekday_map.lookup tl.weekday with
  | none => rw [h1] at h; simp at h
  | some off =>
    rw [h1] at h
    have := pass2Weeks_ok h
    rw [show expOfTL cname tl = (tlWeeks tl).map fun w => ⟨cname, tl, off, w⟩ by
      simp [expOfTL, h1]]
    exact this

theorem pass2TLs_ok {fm : Int} {ds : List ((Nat × Nat) × Option String)}
    {cname : String} :
    ∀ {tls : List TimeLocation} {added : List EvKey} {evs : List CalEvent}
      {added' : List EvKey} {evs' : List CalEvent},
    pass2TLs fm ds cname tls (added, evs) = Except.ok (added', evs') →
    evs' = evs ++ (dedupFirst added (tls.flatMap (expOfTL cname))).map (buildD fm ds) ∧
    added' = (keysOf (dedupFirst added (tls.flatMap (expOfTL cname)))).reverse ++ added := by
  intro tls
  induction tls with
  | nil =>
    intro added evs added' evs' h
    simp only [pass2TLs, Except.ok.injEq, Prod.mk.injEq] at h
    obtain ⟨ha, he⟩ := h
    subst ha; subst he
    simp [dedupFirst, keysOf]
  | cons tl tls ih =>
    intro added evs added' evs' h
    unfold pass2TLs at h
    cases h1 : pass2TL fm ds cname tl (added, evs) with
    | error m => rw [h1] at h; simp at h
    | ok st' =>
      rw [h1] at h
      obtain ⟨added1, evs1⟩ := st'
      obtain ⟨he1, ha1⟩ := pass2TL_ok h1
      obtain ⟨he2, ha2⟩ := ih h
      subst ha1
      constructor
      · rw [he2, he1, List.flatMap_cons, dedupFirst_append]
        simp [List.append_assoc]
      · rw [ha2, List.flatMap_cons, dedupFirst_append]
        simp [keysOf, List.append_assoc]

theorem pass2Courses_ok {fm : Int} {ds : List ((Nat × Nat) × Option String)} :
    ∀ {cs : List Course} {added : List EvKey} {evs : List CalEvent}
      {added' : List EvKey} {evs' : List CalEvent},
    pass2Courses fm ds cs (added, evs) = Except.ok (added', evs') →
    evs' = evs ++ (dedupFirst added (expansionsOf cs)).map (buildD fm ds) ∧
    added' = (keysOf (dedupFirst added (expansionsOf cs))).reverse ++ added := by
  intro cs
  induction cs with
  | nil =>
    intro added evs added' evs' h
    simp only [pass2Courses, Except.ok.injEq, Prod.mk.injEq] at h
    obtain ⟨ha, he⟩ := h
    subst ha; subst he
    simp [dedupFirst, keysOf, expansionsOf]
  | cons c cs ih =>
    intro added evs added' evs' h
    unfold pass2Courses at h
    cases h1 : pass2TLs fm ds c.name c.time_locations (added, evs) with
    | error m => rw [h1] at h; simp at h
    | ok st' =>
      rw [h1] at h
      obtain ⟨added1, evs1⟩ := st'
      obtain ⟨he1, ha1⟩ := pass2TLs_ok h1
      obtain ⟨he2, ha2⟩ := ih h
      subst ha1
      constructor
      · rw [he2, he1, show expansionsOf (c :: cs) =
          c.time_locations.flatMap (expOfTL c.name) ++ expansionsOf cs by
            simp [expansionsOf], dedupFirst_append]
        simp [List.append_assoc]
      · rw [ha2, show expansionsOf (c :: cs) =
          c.time_locations.flatMap (expOfTL c.name) ++ expansionsOf cs by
            simp [expansionsOf], dedupFirst_append]
        simp [keysOf, List.append_assoc]

theorem generate_events_ok {cs : List Course} {d : Nat} {evs : List CalEvent}
    (h : generate_events cs d = Except.ok evs) :
    evs = (dedupFirst [] (expansionsOf cs)).map
      (buildD ((d : Int) - ((d % 7 : Nat) : Int)) (dailySlotsD cs)) := by
  unfold generate_events at h
  dsimp only at h
  cases h1 : pass1 cs with
  | error m => rw [h1] at h; simp at h
  | ok ds =>
    rw [h1] at h
    dsimp only at h
    cases h2 : pass2Courses ((d : Int) - ((d % 7 : Nat) : Int)) ds cs ([], []) with
    | error m => rw [h2] at h; simp at h
    | ok st =>
      rw [h2] at h
      obtain ⟨added', evs'⟩ := st
      simp only [Except.ok.injEq] at h
      subst h
      obtain ⟨he, -⟩ := pass2Courses_ok h2
      rw [he, pass1_ok h1]
      simp

theorem dedupFirst_keys_nodup (l : List Expansion) :
    ∀ seen : List EvKey,
    ((dedupFirst seen l).map keyOfExp).Nodup ∧
    ∀ k ∈ (dedupFirst seen l).map keyOfExp, k ∉ seen := by
  induction l with
  | nil => intro seen; simp [dedupFirst]
  | cons e l ih =>
    intro seen
    by_cases hk : keyOfExp e ∈ seen
    · simp only [dedupFirst, if_pos hk]
      exact ih seen
    · simp only [dedupFirst, if_neg hk, List.map_cons, List.nodup_cons]
      obtain ⟨h1, h2⟩ := ih (keyOfExp e :: seen)
      refine ⟨⟨?_, h1⟩, ?_⟩
      · intro hmem
        exact (h2 _ hmem) (List.mem_cons_self _ _)
      · intro k hkmem
        rcases List.mem_cons.mp hkmem with hke | hktail
        · subst hke; exact hk
        · intro hks
          exact (h2 k hktail) (List.mem_cons_of_mem _ hks)

/-- C3: for every list of parsed courses and every semester start date, no
two events emitted by `generate_events` share the identity key (courseName,
teacher, weekNumber, weekdayLabel, startTime, endTime), even when
overlapping week ranges expand to the same key. -/
theorem c3_identity_key_unique (cs : List Course) (d : Nat) (evs : List CalEvent)
    (h : generate_events cs d = Except.ok evs) :
    (evs.map keyOfEvent).Nodup := by
  rw [generate_events_ok h, List.map_map]
  have hcomp : keyOfEvent ∘ buildD ((d : Int) - ((d % 7 : Nat) : Int)) (dailySlotsD cs)
      = keyOfExp := by
    funext x
    rfl
  rw [hcomp]
  exact (dedupFirst_keys_nodup (expansionsOf cs) []).1

/-- Witness for C3: overlapping ranges (1–3 and 2–4) still yield pairwise
distinct identity keys. -/
theorem c3_witness : (c3Events.map keyOfEvent).Nodup :=
  c3_identity_key_unique c3Input 0 c3Events (by rfl)

/-- C4: an emitted instance whose start hour anchors to block `3-4` has no
alarm when block `1-2` is occupied that day, one anchored to `7-8` has none
when `5-6` is occupied, and every other instance (including anchor-less
ones) carries an alarm triggered 20 minutes before its start. -/
theorem c4_alarm_policy (cs : List Course) (d : Nat) (evs : List CalEvent)
    (h : generate_events cs d = Except.ok evs) :
    ∀ e ∈ evs, e.alarmTrigger =
      if (slotAnchor e.startHour = some "3-4" ∧
            slotOccupied cs e.week e.weekdayOffset "1-2" = true) ∨
         (slotAnchor e.startHour = some "7-8" ∧
            slotOccupied cs e.week e.weekdayOffset "5-6" = true)
      then none else some (-20) := by
  intro e he
  rw [generate_events_ok h] at he
  obtain ⟨x, hx, rfl⟩ := List.mem_map.mp he
  simp only [buildD, buildEvent, mem_dailySlotsD]

/-- Witness for C4: the `3-4` instance of `c4Input` is suppressed and the
anchor-less instance keeps its alarm. -/
theorem c4_witness :
    (c4ev ∈ c4Events ∧ c4ev.alarmTrigger =
      (if (slotAnchor c4ev.startHour = some "3-4" ∧
            slotOccupied c4Input c4ev.week c4ev.weekdayOffset "1-2" = true) ∨
          (slotAnchor c4ev.startHour = some "7-8" ∧
            slotOccupied c4Input c4ev.week c4ev.weekdayOffset "5-6" = true)
       then none else some (-20))) ∧
    (c4evLab ∈ c4Events ∧ c4evLab.alarmTrigger =
      (if (slotAnchor c4evLab.startHour = some "3-4" ∧
            slotOccupied c4Input c4evLab.week c4evLab.weekdayOffset "1-2" = true) ∨
          (slotAnchor c4evLab.startHour = some "7-8" ∧
            slotOccupied c4Input c4evLab.week c4evLab.weekdayOffset "5-6" = true)
       then none else some (-20))) :=
  ⟨⟨List.Mem.tail _ (List.Mem.head _),
    c4_alarm_policy c4Input 0 c4Events (by rfl) c4ev
      (List.Mem.tail _ (List.Mem.head _))⟩,
   ⟨List.Mem.tail _ (List.Mem.tail _ (List.Mem.head _)),
    c4_alarm_policy c4Input 0 c4Events (by rfl) c4evLab
      (List.Mem.tail _ (List.Mem.tail _ (List.Mem.head _)))⟩⟩

/-- C10: the emitted events are exactly the first expansion of each
identity key in iteration order, built from that expansion's data
(location, times, description, alarm decision); later expansions with a
duplicate key — even with a different location or time string — contribute
nothing. -/
theorem c10_first_expansion_wins (cs : List Course) (d : Nat) (evs : List CalEvent)
    (h : generate_events cs d = Except.ok evs) :
    evs = (dedupFirst [] (expansionsOf cs)).map
      (buildD ((d : Int) - ((d % 7 : Nat) : Int)) (dailySlotsD cs)) :=
  generate_events_ok h

/-- Witness for C10: two time locations with the same key but different
locations produce one event, built from the first. -/
theorem c10_witness :
    c10Events = (dedupFirst [] (expansionsOf c10Input)).map
      (buildD ((0 : Int) - ((0 % 7 : Nat) : Int)) (dailySlotsD c10Input)) :=
  c10_first_expansion_wins c10Input 0 c10Events (by rfl)

/-! ## Lemmas for the week-count summary (claim C8) -/

theorem foldl_union_mem (ps : List (Nat × Nat)) (acc : Finset Nat) (x : Nat) :
    (x ∈ ps.foldl (fun a p => a ∪ Finset.Icc p.1 p.2) acc) ↔
      x ∈ acc ∨ ∃ p ∈ ps, x ∈ Finset.Icc p.1 p.2 := by
  induction ps generalizing acc with
  | nil => simp
  | cons p ps ih =>
    simp only [List.foldl_cons, ih, Finset.mem_union, List.mem_cons]
    constructor
    · rintro (⟨hx | hx⟩ | ⟨q, hq, hx⟩)
      · exact Or.inl hx
      · exact Or.inr ⟨p, Or.inl rfl, hx⟩
      · exact Or.inr ⟨q, Or.inr hq, hx⟩
    · rintro (hx | ⟨q, (rfl | hq), hx⟩)
      · exact Or.inl (Or.inl hx)
      · exact Or.inl (Or.inr hx)
      · exact Or.inr ⟨q, hq, hx⟩

theorem totalWeeksSet_mem (tls : List TimeLocation) (x : Nat) :
    x ∈ totalWeeksSet tls ↔ ∃ tl ∈ tls, ∃ p ∈ tl.weeks, x ∈ Finset.Icc p.1 p.2 := by
  unfold totalWeeksSet
  have key : ∀ acc : Finset Nat,
      (x ∈ tls.foldl (fun acc tl =>
        tl.weeks.foldl (fun a p => a ∪ Finset.Icc p.1 p.2) acc) acc) ↔
      x ∈ acc ∨ ∃ tl ∈ tls, ∃ p ∈ tl.weeks, x ∈ Finset.Icc p.1 p.2 := by
    induction tls with
    | nil => simp
    | cons tl tls ih =>
      intro acc
      simp only [List.foldl_cons, ih, foldl_union_mem, List.mem_cons]
      constructor
      · rintro (⟨hx | ⟨p, hp, hx⟩⟩ | ⟨u, hu, q, hq, hx⟩)
        · exact Or.inl hx
        · exact Or.inr ⟨tl, Or.inl rfl, p, hp, hx⟩
        · exact Or.inr ⟨u, Or.inr hu, q, hq, hx⟩
      · rintro (hx | ⟨u, (rfl | hu), q, hq, hx⟩)
        · exact Or.inl (Or.inl hx)
        · exact Or.inl (Or.inr ⟨q, hq, hx⟩)
        · exact Or.inr ⟨u, hu, q, hq, hx⟩
  simpa using key ∅

theorem totalWeeksSet_eq_biUnion (tls : List TimeLocation) :
    totalWeeksSet tls =
      (tls.flatMap fun tl => tl.weeks).toFinset.biUnion
        (fun p => Finset.Icc p.1 p.2) := by
  ext x
  simp only [totalWeeksSet_mem, Finset.mem_biUnion, List.mem_toFinset, List.mem_flatMap]
  constructor
  · rintro ⟨tl, htl, p, hp, hx⟩
    exact ⟨p, ⟨tl, htl, hp⟩, hx⟩
  · rintro ⟨p, ⟨tl, htl, hp⟩, hx⟩
    exact ⟨tl, htl, p, hp, hx⟩

/-- C8: a course summary's `total_weeks` equals the cardinality of the
set-union of the integer intervals [startWeek, endWeek] over all week
ranges of all its TimeLocations, and the value is unchanged by overlapping
ranges or by any reordering of the ranges (any permutation of the flattened
range list gives the same count). -/
theorem c8_total_weeks_is_union_card (course course2 : Course)
    (hperm : (course.time_locations.flatMap fun tl => tl.weeks).Perm
             (course2.time_locations.flatMap fun tl => tl.weeks)) :
    (format_course_summary course).total_weeks =
      ((course.time_locations.flatMap fun tl => tl.weeks).toFinset.biUnion
        (fun p => Finset.Icc p.1 p.2)).card ∧
    (format_course_summary course).total_weeks =
      (format_course_summary course2).total_weeks := by
  constructor
  · show (totalWeeksSet course.time_locations).card = _
    rw [totalWeeksSet_eq_biUnion]
  · show (totalWeeksSet course.time_locations).card
      = (totalWeeksSet course2.time_locations).card
    have hts : (course.time_locations.flatMap fun tl => tl.weeks).toFinset
        = (course2.time_locations.flatMap fun tl => tl.weeks).toFinset := by
      ext x
      simp only [List.mem_toFinset]
      exact hperm.mem_iff
    rw [totalWeeksSet_eq_biUnion, totalWeeksSet_eq_biUnion, hts]

/-- Witness for C8: weeks 1–3 and 2–5 overlap and count five distinct
weeks in either order. -/
theorem c8_witness :
    (format_course_summary c8CourseA).total_weeks =
      ((c8CourseA.time_locations.flatMap fun tl => tl.weeks).toFinset.biUnion
        (fun p => Finset.Icc p.1 p.2)).card ∧
    (format_course_summary c8CourseA).total_weeks =
      (format_course_summary c8CourseB).total_weeks :=
  c8_total_weeks_is_union_card c8CourseA c8CourseB (by decide)
